import Mathlib

/-!
Shallow embedding of the reconcile core of kpt-config-sync:
the declared-resource store (`pkg/declared/resources.go`), the updater cycle
orchestrator (`pkg/parse`, `Updater.Update`/`Updater.update`), and the
cli-utils applier run loop (`pkg/apply`, `Applier.Run`), together with
theorems settling the frozen claims about them.

External effects (metrics recording, remediator pause/resume, event channel
emission, task execution) are modelled as explicit traces; outcomes of calls
into collaborator subsystems (object sanitization, namespace-retention
validation, the inventory client, the task-status runner) are supplied as
environment parameters, so each theorem quantifies over all possible
behaviors of those collaborators.
-/

namespace ConfigSync

/-- Object identity: (group, kind, namespace, name), as in `core.ID`. -/
structure ID where
  group : String
  kind : String
  nspace : String
  name : String
deriving DecidableEq

/-- GroupVersionKind, as in `schema.GroupVersionKind`. -/
structure GVK where
  group : String
  version : String
  kind : String
deriving DecidableEq

namespace declared

/-- A declared object (`client.Object`): its identity plus opaque content. -/
structure Obj where
  id : ID
  gvk : GVK
  content : String
deriving DecidableEq

/-- The unstructured form of an object, produced by
`reconcile.AsUnstructuredSanitized`. -/
structure Unstr where
  id : ID
  gvk : GVK
  content : String
deriving DecidableEq

/-- `core.IDOf`. -/
def IDOf (o : Obj) : ID := o.id

/-- Errors returned by `Resources.Update` (`status.Error`): the internal
error wrapping a conversion failure, or an error produced by the
namespace-retention validation `deletesAllNamespaces`. -/
inductive SErr where
  | internalError (id : ID)
  | nsRetention (code : Nat)
deriving DecidableEq

/-- The ordered map `orderedmap.OrderedMap[core.ID, *unstructured.Unstructured]`:
association list in insertion order, unique keys. -/
abbrev OMap := List (ID × Unstr)

/-- `OrderedMap.Set`: overwrite in place if the key is present, else append. -/
def omSet (m : OMap) (k : ID) (v : Unstr) : OMap :=
  if (List.any m fun p => p.1 = k) then
    List.map (fun p => if p.1 = k then (k, v) else p) m
  else
    m ++ [(k, v)]

/-- `OrderedMap.Get`. -/
def omGet (m : OMap) (k : ID) : Option Unstr :=
  Option.map (fun p => p.2) (List.find? (fun p => p.1 = k) m)

/-- Observable metric recordings made during `Resources.Update`
(`metrics.RecordDeclaredResources` and `metrics.RecordInternalError`). -/
inductive MetricEvent where
  | declaredResources (commit : String) (num : Nat)
  | internalError (source : String)
deriving DecidableEq

/-- The `declared.Resources` store state: the object map pointer (nil until
the first successful update) and the commit of the installed snapshot. -/
structure Resources where
  objectMap : Option OMap
  commit : String
deriving DecidableEq

/-- The first loop of `Resources.Update`: build the new ordered map and the
filtered object list. Nil objects are logged, counted as a parser internal
error, and skipped; a sanitization failure aborts with an internal error.
`sanitize` stands for `reconcile.AsUnstructuredSanitized`. -/
def buildNewSet (sanitize : Obj → Option Unstr) :
    List (Option Obj) → OMap → List Obj → List MetricEvent →
    Except SErr (OMap × List Obj) × List MetricEvent
  | [], newSet, newObjects, ms => (Except.ok (newSet, newObjects), ms)
  | none :: rest, newSet, newObjects, ms =>
      buildNewSet sanitize rest newSet newObjects (ms ++ [MetricEvent.internalError "parser"])
  | some obj :: rest, newSet, newObjects, ms =>
      match sanitize obj with
      | none => (Except.error (SErr.internalError (IDOf obj)), ms)
      | some u => buildNewSet sanitize rest (omSet newSet (IDOf obj) u) (newObjects ++ [obj]) ms

/-- Result of `Resources.Update`: the returned `([]client.Object, status.Error)`
pair, the store state after the call, and the metric recordings made. -/
structure UpdateResult where
  ret : Except SErr (List Obj)
  state : Resources
  metrics : List MetricEvent

/-- `Resources.Update` (resources.go:48-91). `checkNs` stands for the
namespace-retention validation `deletesAllNamespaces`, which receives the
previous map pointer (possibly nil) and the new map. -/
def Resources.Update (sanitize : Obj → Option Unstr)
    (checkNs : Option OMap → OMap → Option SErr)
    (r : Resources) (objects : List (Option Obj)) (commit oldCommit : String) :
    UpdateResult :=
  match buildNewSet sanitize objects [] [] [] with
  | (Except.error e, ms) => ⟨Except.error e, r, ms⟩
  | (Except.ok (newSet, newObjects), ms) =>
      let ms := ms ++ [MetricEvent.declaredResources commit newObjects.length]
      let ms := if oldCommit ≠ commit ∧ oldCommit ≠ "" then
          ms ++ [MetricEvent.declaredResources oldCommit 0]
        else ms
      match checkNs r.objectMap newSet with
      | some e => ⟨Except.error e, r, ms⟩
      | none => ⟨Except.ok newObjects, { objectMap := some newSet, commit := commit }, ms⟩

/-- `Resources.Get` (resources.go:94-108), value-level view: returns the
stored object (as a copy), the commit, and the found flag. -/
def Resources.Get (r : Resources) (id : ID) : Option Unstr × String × Bool :=
  match r.objectMap with
  | none => (none, r.commit, false)
  | some m =>
      if m.length = 0 then (none, r.commit, false)
      else
        match omGet m id with
        | some u => (some u, r.commit, true)
        | none => (none, r.commit, false)

/-- `Resources.DeclaredUnstructureds` (resources.go:112-125). -/
def Resources.DeclaredUnstructureds (r : Resources) : Option (List Unstr) × String :=
  match r.objectMap with
  | none => (none, r.commit)
  | some m =>
      if m.length = 0 then (none, r.commit)
      else (some (List.map (fun p => p.2) m), r.commit)

/-- `Resources.DeclaredObjects` (resources.go:129-142): same traversal,
returning the stored values as `client.Object`. -/
def Resources.DeclaredObjects (r : Resources) : Option (List Unstr) × String :=
  match r.objectMap with
  | none => (none, r.commit)
  | some m =>
      if m.length = 0 then (none, r.commit)
      else (some (List.map (fun p => p.2) m), r.commit)

/-- `Resources.DeclaredGVKs` (resources.go:146-159). -/
def Resources.DeclaredGVKs (r : Resources) : Option (Finset GVK) × String :=
  match r.objectMap with
  | none => (none, r.commit)
  | some m =>
      if m.length = 0 then (none, r.commit)
      else (some (List.map (fun p => p.2.gvk) m).toFinset, r.commit)

/-- If the build loop of `Resources.Update` succeeds, the returned object list
is the input list with nils dropped (appended to the accumulator), and the
metric recordings are one parser internal error per nil object. -/
theorem buildNewSet_ok (sanitize : Obj → Option Unstr) :
    ∀ (objects : List (Option Obj)) (s : OMap) (o : List Obj) (ms : List MetricEvent)
      (ns : OMap) (no : List Obj) (ms' : List MetricEvent),
      buildNewSet sanitize objects s o ms = (Except.ok (ns, no), ms') →
      no = o ++ objects.reduceOption ∧
      ms' = ms ++ List.replicate (objects.count none) (MetricEvent.internalError "parser")
  | [], s, o, ms, ns, no, ms', h => by
      simp only [buildNewSet, Prod.mk.injEq, Except.ok.injEq] at h
      simp [← h.1.2, ← h.2]
  | none :: rest, s, o, ms, ns, no, ms', h => by
      simp only [buildNewSet] at h
      have ih := buildNewSet_ok sanitize rest s o
        (ms ++ [MetricEvent.internalError "parser"]) ns no ms' h
      refine ⟨by simp [ih.1], ?_⟩
      rw [ih.2]
      simp [List.count_cons, List.replicate_succ, List.append_assoc]
  | some obj :: rest, s, o, ms, ns, no, ms', h => by
      simp only [buildNewSet] at h
      cases hs : sanitize obj with
      | none => rw [hs] at h; exact absurd h (by simp)
      | some u =>
          rw [hs] at h
          have ih := buildNewSet_ok sanitize rest (omSet s (IDOf obj) u) (o ++ [obj]) ms ns no ms' h
          refine ⟨by simp [ih.1], ?_⟩
          rw [ih.2]
          simp [List.count_cons]

/-- C1: when the namespace-retention validation (`deletesAllNamespaces`,
here `checkNs`) rejects the new object set, `Resources.Update` returns that
error and leaves the store untouched, so every subsequent `Get`,
`DeclaredObjects`, `DeclaredUnstructureds` and `DeclaredGVKs` observes
exactly the objects and commit of the previous successful update. -/
theorem resources_update_rejected_unchanged
    (sanitize : Obj → Option Unstr) (checkNs : Option OMap → OMap → Option SErr)
    (r : Resources) (objects : List (Option Obj)) (commit oldCommit : String)
    (newSet : OMap) (newObjects : List Obj) (ms : List MetricEvent) (e : SErr)
    (hbuild : buildNewSet sanitize objects [] [] [] = (Except.ok (newSet, newObjects), ms))
    (hrej : checkNs r.objectMap newSet = some e) :
    (Resources.Update sanitize checkNs r objects commit oldCommit).ret = Except.error e ∧
    (Resources.Update sanitize checkNs r objects commit oldCommit).state = r ∧
    (∀ id, Resources.Get
        (Resources.Update sanitize checkNs r objects commit oldCommit).state id =
        Resources.Get r id) ∧
    Resources.DeclaredObjects
        (Resources.Update sanitize checkNs r objects commit oldCommit).state =
      Resources.DeclaredObjects r ∧
    Resources.DeclaredUnstructureds
        (Resources.Update sanitize checkNs r objects commit oldCommit).state =
      Resources.DeclaredUnstructureds r ∧
    Resources.DeclaredGVKs
        (Resources.Update sanitize checkNs r objects commit oldCommit).state =
      Resources.DeclaredGVKs r := by
    have hupd : Resources.Update sanitize checkNs r objects commit oldCommit =
        ⟨Except.error e, r,
          (ms ++ [MetricEvent.declaredResources commit newObjects.length]) ++
            (if oldCommit ≠ commit ∧ oldCommit ≠ "" then
              [MetricEvent.declaredResources oldCommit 0] else [])⟩ := by
      unfold Resources.Update
      rw [hbuild]
      split
      all_goals simp_all [hrej]
      all_goals split_ifs
      all_goals simp
    rw [hupd]
    exact ⟨rfl, rfl, fun _ => rfl, rfl, rfl, rfl⟩

/-- Witness for C1 at a concrete input: an always-rejecting validation makes
`Resources.Update` fail and keep the previous (empty) store and old commit. -/
theorem resources_update_rejected_unchanged_witness :
    (Resources.Update (fun o => some ⟨o.id, o.gvk, o.content⟩)
        (fun _ _ => some (SErr.nsRetention 7)) ⟨none, "c0"⟩ [] "c1" "c0").ret =
      Except.error (SErr.nsRetention 7) ∧
    (Resources.Update (fun o => some ⟨o.id, o.gvk, o.content⟩)
        (fun _ _ => some (SErr.nsRetention 7)) ⟨none, "c0"⟩ [] "c1" "c0").state =
      ⟨none, "c0"⟩ := by
  have h := resources_update_rejected_unchanged
    (fun o => some ⟨o.id, o.gvk, o.content⟩) (fun _ _ => some (SErr.nsRetention 7))
    ⟨none, "c0"⟩ [] "c1" "c0" [] [] [] (SErr.nsRetention 7) rfl rfl
  exact ⟨h.1, h.2.1⟩

/-- C6 (amended): on every `Resources.Update` call whose objects all convert,
the declared-resources metric is recorded for the new commit with the count
of non-nil incoming objects, and a zero is additionally recorded for the old
commit exactly when the commit differs from the old commit AND the old
commit is non-empty; nil objects each record a parser internal error. -/
theorem resources_update_metrics
    (sanitize : Obj → Option Unstr) (checkNs : Option OMap → OMap → Option SErr)
    (r : Resources) (objects : List (Option Obj)) (commit oldCommit : String)
    (newSet : OMap) (newObjects : List Obj) (ms : List MetricEvent)
    (hbuild : buildNewSet sanitize objects [] [] [] = (Except.ok (newSet, newObjects), ms)) :
    (Resources.Update sanitize checkNs r objects commit oldCommit).metrics =
      List.replicate (objects.count none) (MetricEvent.internalError "parser") ++
      [MetricEvent.declaredResources commit objects.reduceOption.length] ++
      (if oldCommit ≠ commit ∧ oldCommit ≠ "" then
        [MetricEvent.declaredResources oldCommit 0] else []) := by
  obtain ⟨hno, hms⟩ := buildNewSet_ok sanitize objects [] [] [] newSet newObjects ms hbuild
  simp only [List.nil_append] at hno hms
  unfold Resources.Update
  rw [hbuild]
  cases hc : checkNs r.objectMap newSet <;>
    simp [hc, hms, hno, List.append_assoc] <;> split_ifs <;> simp

/-- Witness for C6's amended statement at a concrete input with one nil and
one real object and a changed, non-empty old commit. -/
theorem resources_update_metrics_witness :
    (Resources.Update (fun o => some ⟨o.id, o.gvk, o.content⟩) (fun _ _ => none)
        ⟨none, "c0"⟩ [none, some ⟨⟨"", "ConfigMap", "ns1", "cm1"⟩, ⟨"", "v1", "ConfigMap"⟩, "d"⟩]
        "c1" "c0").metrics =
      [MetricEvent.internalError "parser", MetricEvent.declaredResources "c1" 1,
        MetricEvent.declaredResources "c0" 0] := by
  have h := resources_update_metrics (fun o => some ⟨o.id, o.gvk, o.content⟩)
    (fun _ _ => none) ⟨none, "c0"⟩
    [none, some ⟨⟨"", "ConfigMap", "ns1", "cm1"⟩, ⟨"", "v1", "ConfigMap"⟩, "d"⟩]
    "c1" "c0"
    [(⟨"", "ConfigMap", "ns1", "cm1"⟩, ⟨⟨"", "ConfigMap", "ns1", "cm1"⟩, ⟨"", "v1", "ConfigMap"⟩, "d"⟩)]
    [⟨⟨"", "ConfigMap", "ns1", "cm1"⟩, ⟨"", "v1", "ConfigMap"⟩, "d"⟩]
    [MetricEvent.internalError "parser"] rfl
  rw [h]
  decide

/-- Counterexample to C6 as stated: on a first sync the old commit is empty,
the revision changes (`"c1" ≠ ""`), yet no zero is recorded for the old
commit: the metric trace holds only the new commit's recording. -/
theorem resources_update_metrics_counterexample :
    "c1" ≠ "" ∧
    MetricEvent.declaredResources "" 0 ∉
      (Resources.Update (fun o => some ⟨o.id, o.gvk, o.content⟩) (fun _ _ => none)
        ⟨none, "c0"⟩ [some ⟨⟨"", "ConfigMap", "ns1", "cm1"⟩, ⟨"", "v1", "ConfigMap"⟩, "d"⟩]
        "c1" "").metrics := by
  constructor
  · decide
  · decide

/-! Heap-level model of `Resources.Get` (resources.go:94-108), making the
deep-copy semantics observable. Objects live in an explicit heap of cells
addressed by allocation order; the store's ordered map holds addresses of
the installed objects, and `DeepCopy` is a fresh allocation holding an equal
value. Mutation of a returned object is an in-place write to its cell. -/

/-- A heap of unstructured objects; the address of a cell is its index. -/
structure Heap where
  cells : List Unstr
deriving DecidableEq

/-- Allocate a fresh cell holding `v`, returning its address. -/
def Heap.alloc (h : Heap) (v : Unstr) : Nat × Heap :=
  (h.cells.length, ⟨h.cells ++ [v]⟩)

/-- Read the cell at address `a`. -/
def Heap.read (h : Heap) (a : Nat) : Option Unstr :=
  h.cells[a]?

/-- Mutate the cell at address `a` in place. -/
def Heap.write (h : Heap) (a : Nat) (v : Unstr) : Heap :=
  ⟨h.cells.set a v⟩

/-- The `declared.Resources` store at heap level: the object map holds
addresses of the stored unstructured objects. -/
structure ResourcesH where
  objectMap : Option (List (ID × Nat))
  commit : String
deriving DecidableEq

/-- `Resources.Get` at heap level: look up the stored address and return a
fresh deep copy of the stored object (`u.DeepCopy()`), never the stored
address itself. -/
def ResourcesH.Get (r : ResourcesH) (h : Heap) (id : ID) :
    Option Nat × String × Bool × Heap :=
  match r.objectMap with
  | none => (none, r.commit, false, h)
  | some m =>
      if m.length = 0 then (none, r.commit, false, h)
      else
        match Option.map (fun p => p.2) (List.find? (fun p => p.1 = id) m) with
        | none => (none, r.commit, false, h)
        | some addr =>
            match h.read addr with
            | none => (none, r.commit, false, h)
            | some v =>
                let av := h.alloc v
                (some av.1, r.commit, true, av.2)

/-- Well-formedness: every stored address points into the heap. -/
def ResourcesH.wf (r : ResourcesH) (h : Heap) : Prop :=
  ∀ p ∈ r.objectMap.getD [], p.2 < h.cells.length

/-- C5: `Resources.Get` returns a deep copy. Mutating the object returned by
one `Get` (writing any value `v` into its cell) never changes the object a
subsequent `Get` of the same ID returns: the second call yields a cell with
the same value the first call returned before the mutation, at a distinct
address (equal but not aliased). -/
theorem resourcesH_get_deep_copy (r : ResourcesH) (h : Heap) (id : ID)
    (a₁ : Nat) (c : String) (h₁ : Heap)
    (hwf : r.wf h)
    (hget : r.Get h id = (some a₁, c, true, h₁)) (v : Unstr) :
    ∃ a₂ h₂ u,
      r.Get (h₁.write a₁ v) id = (some a₂, c, true, h₂) ∧
      Heap.read h₂ a₂ = some u ∧
      Heap.read h₁ a₁ = some u ∧
      a₂ ≠ a₁ := by
  unfold ResourcesH.Get at hget
  split at hget
  · exact absurd hget (by simp)
  rename_i m hm
  split at hget
  · exact absurd hget (by simp)
  rename_i hlen
  split at hget
  · exact absurd hget (by simp)
  rename_i addr hfind
  split at hget
  · exact absurd hget (by simp)
  rename_i v₀ hread
  simp only [Heap.alloc, Prod.mk.injEq, Option.some.injEq, true_and] at hget
  obtain ⟨ha₁, hc, hh₁⟩ := hget
  -- the stored address is strictly below the freshly allocated one
  have haddr : addr < h.cells.length := by
    obtain ⟨p₀, hfound, hp2⟩ := Option.map_eq_some'.mp hfind
    have hmem := List.mem_of_find?_eq_some hfound
    have hlt := hwf p₀ (by simp [hm]; exact hmem)
    omega
  have hane : addr ≠ a₁ := by omega
  -- reading the stored address is unaffected by the mutation
  have hread₁ : (Heap.write h₁ a₁ v).read addr = some v₀ := by
    rw [← hh₁]
    simp only [Heap.write, Heap.read]
    rw [List.getElem?_set_ne (Ne.symm hane), List.getElem?_append, if_pos haddr]
    exact hread
  refine ⟨(Heap.write h₁ a₁ v).cells.length,
    ⟨(Heap.write h₁ a₁ v).cells ++ [v₀]⟩, v₀, ?_, ?_, ?_, ?_⟩
  · unfold ResourcesH.Get
    simp [hm, hlen, hfind, hread₁, Heap.alloc, hc]
  · simp [Heap.read]
  · rw [← hh₁, ← ha₁]
    simp only [Heap.read]
    exact List.getElem?_concat_length h.cells v₀
  · rw [← hh₁]
    simp only [Heap.write, List.length_set, List.length_append,
      List.length_cons, List.length_nil]
    omega

/-- Witness for C5 at a concrete store: a one-object store, first `Get`
returns address 1, mutating it leaves a later `Get` reading the original
value at a fresh address. -/
theorem resourcesH_get_deep_copy_witness :
    ∃ a₂ h₂ u,
      ResourcesH.Get ⟨some [(⟨"g", "k", "n", "m"⟩, 0)], "c"⟩
          (Heap.write ⟨[⟨⟨"g", "k", "n", "m"⟩, ⟨"g", "v1", "k"⟩, "x"⟩,
            ⟨⟨"g", "k", "n", "m"⟩, ⟨"g", "v1", "k"⟩, "x"⟩]⟩ 1
            ⟨⟨"g", "k", "n", "m"⟩, ⟨"g", "v1", "k"⟩, "mutated"⟩)
          ⟨"g", "k", "n", "m"⟩ = (some a₂, "c", true, h₂) ∧
      Heap.read h₂ a₂ = some u ∧
      Heap.read ⟨[⟨⟨"g", "k", "n", "m"⟩, ⟨"g", "v1", "k"⟩, "x"⟩,
        ⟨⟨"g", "k", "n", "m"⟩, ⟨"g", "v1", "k"⟩, "x"⟩]⟩ 1 = some u ∧
      a₂ ≠ 1 :=
  resourcesH_get_deep_copy ⟨some [(⟨"g", "k", "n", "m"⟩, 0)], "c"⟩
    ⟨[⟨⟨"g", "k", "n", "m"⟩, ⟨"g", "v1", "k"⟩, "x"⟩]⟩ ⟨"g", "k", "n", "m"⟩
    1 "c" ⟨[⟨⟨"g", "k", "n", "m"⟩, ⟨"g", "v1", "k"⟩, "x"⟩,
      ⟨⟨"g", "k", "n", "m"⟩, ⟨"g", "v1", "k"⟩, "x"⟩]⟩
    (by simp [ResourcesH.wf]) rfl ⟨⟨"g", "k", "n", "m"⟩, ⟨"g", "v1", "k"⟩, "mutated"⟩

end declared

namespace parse

/-- An opaque element of a `status.MultiError`; a multi-error is a list of
these, with the empty list standing for the nil error. -/
inductive UErr where
  | mk (code : Nat)
deriving DecidableEq

/-- `status.Append` on multi-errors: appending a (possibly nil) error set. -/
def statusAppend (a b : List UErr) : List UErr := a ++ b

/-- Outcomes of the collaborator calls made during one updater cycle:
the errors returned by `Resources.Update` (declare), `Applier.Apply`,
`Remediator.UpdateWatches`, and the conflict and fight errors currently
held by the remediator. -/
structure UpdEnv where
  declareErrs : List UErr
  applyErrs : List UErr
  watchErrs : List UErr
  conflictErrs : List UErr
  fightErrs : List UErr

/-- The `cacheForCommit` partial-progress flags and per-commit data used by
`Updater.update`. -/
structure CacheForCommit where
  declaredResourcesUpdated : Bool
  applied : Bool
  watchesUpdated : Bool
  parserErrs : List UErr
  commit : String
deriving DecidableEq

/-- Observable remediator/step actions of one `Updater.update` cycle. -/
inductive Action where
  | pause
  | declareStep
  | applyStep
  | watchStep
  | resume
deriving DecidableEq

/-- Result of one cycle: the mutated cache, the returned multi-error, and
the ordered trace of actions taken. -/
structure CycleResult where
  cache : CacheForCommit
  errs : List UErr
  trace : List Action
deriving DecidableEq

/-- `Updater.conflictErrors`: fold the remediator conflict errors into a
multi-error with `status.Append`. -/
def conflictErrors (env : UpdEnv) : List UErr :=
  env.conflictErrs.foldl (fun acc e => statusAppend acc [e]) []

/-- `Updater.fightErrors`: fold the remediator fight errors into a
multi-error with `status.Append`. -/
def fightErrors (env : UpdEnv) : List UErr :=
  env.fightErrs.foldl (fun acc e => statusAppend acc [e]) []

/-- The watch-update stage of `Updater.update` (part_001:269-280), followed
by the remediator resume (part_001:287). -/
def Updater.watchPhase (env : UpdEnv) (cache : CacheForCommit) (t : List Action) :
    CycleResult :=
  if cache.watchesUpdated then ⟨cache, [], t ++ [Action.resume]⟩
  else
    let t := t ++ [Action.watchStep]
    if env.watchErrs ≠ [] then ⟨cache, env.watchErrs, t⟩
    else
      let cache := if cache.parserErrs = [] then { cache with watchesUpdated := true } else cache
      ⟨cache, [], t ++ [Action.resume]⟩

/-- The apply stage of `Updater.update` (part_001:256-266). -/
def Updater.applyPhase (env : UpdEnv) (cache : CacheForCommit) (t : List Action) :
    CycleResult :=
  if cache.applied then Updater.watchPhase env cache t
  else
    let t := t ++ [Action.applyStep]
    if env.applyErrs ≠ [] then ⟨cache, env.applyErrs, t⟩
    else
      let cache := if cache.parserErrs = [] then { cache with applied := true } else cache
      Updater.watchPhase env cache t

/-- `Updater.update` (part_001:232-290): pause the remediator, then run the
declare, apply and watch stages, resuming the remediator only after all
three have succeeded; an error returns immediately with the cache mutations
made so far. -/
def Updater.update (env : UpdEnv) (cache : CacheForCommit) : CycleResult :=
  let t := [Action.pause]
  if cache.declaredResourcesUpdated then Updater.applyPhase env cache t
  else
    let t := t ++ [Action.declareStep]
    if env.declareErrs ≠ [] then ⟨cache, env.declareErrs, t⟩
    else
      let cache := if cache.parserErrs = [] then { cache with declaredResourcesUpdated := true } else cache
      Updater.applyPhase env cache t

/-- `Updater.Update` (part_001:212-228): run the cycle and prepend the
remediator's current conflict errors and fight errors to its errors. -/
def Updater.Update (env : UpdEnv) (cache : CacheForCommit) :
    CacheForCommit × List UErr :=
  let r := Updater.update env cache
  let errs := statusAppend (statusAppend (statusAppend [] (conflictErrors env)) (fightErrors env)) r.errs
  (r.cache, errs)

/-- Folding single errors with `status.Append` concatenates them. -/
theorem foldl_statusAppend (l : List UErr) :
    ∀ acc, l.foldl (fun acc e => statusAppend acc [e]) acc = acc ++ l := by
  induction l with
  | nil => intro acc; simp
  | cons e rest ih =>
      intro acc
      rw [List.foldl_cons, ih]
      simp [statusAppend]

/-- The conflict-error fold is plain concatenation of the conflict list. -/
theorem conflictErrors_eq (env : UpdEnv) : conflictErrors env = env.conflictErrs := by
  simpa [conflictErrors] using foldl_statusAppend env.conflictErrs []

/-- The fight-error fold is plain concatenation of the fight list. -/
theorem fightErrors_eq (env : UpdEnv) : fightErrors env = env.fightErrs := by
  simpa [fightErrors] using foldl_statusAppend env.fightErrs []

/-- The watch phase appends only watch/resume actions to the trace, and it
appends a resume exactly when it reports no error. -/
theorem watchPhase_trace (env : UpdEnv) (cache : CacheForCommit) (t : List Action) :
    ∃ rest, (Updater.watchPhase env cache t).trace = t ++ rest ∧
      Action.declareStep ∉ rest ∧ Action.applyStep ∉ rest ∧ Action.pause ∉ rest ∧
      (Action.resume ∈ rest ↔ (Updater.watchPhase env cache t).errs = []) := by
  unfold Updater.watchPhase
  by_cases hw : cache.watchesUpdated
  · exact ⟨[Action.resume], by simp [hw]⟩
  by_cases he : env.watchErrs = []
  · refine ⟨[Action.watchStep, Action.resume], ?_⟩
    simp [hw, he]
  · refine ⟨[Action.watchStep], ?_⟩
    simp [hw, he]

/-- The apply phase appends only apply/watch/resume actions to the trace,
appending a resume exactly when it reports no error; with `applied` unset it
starts with the apply step. -/
theorem applyPhase_trace (env : UpdEnv) (cache : CacheForCommit) (t : List Action) :
    ∃ rest, (Updater.applyPhase env cache t).trace = t ++ rest ∧
      Action.declareStep ∉ rest ∧ Action.pause ∉ rest ∧
      (Action.resume ∈ rest ↔ (Updater.applyPhase env cache t).errs = []) ∧
      (¬cache.applied → rest.head? = some Action.applyStep) := by
  by_cases ha : cache.applied
  · have hred : Updater.applyPhase env cache t = Updater.watchPhase env cache t := by
      simp [Updater.applyPhase, ha]
    obtain ⟨rest, htr, hd, hap, hp, hres⟩ := watchPhase_trace env cache t
    rw [hred]
    exact ⟨rest, htr, hd, hp, hres, by simp [ha]⟩
  by_cases he : env.applyErrs = []
  · have hred : Updater.applyPhase env cache t =
        Updater.watchPhase env
          (if cache.parserErrs = [] then { cache with applied := true } else cache)
          (t ++ [Action.applyStep]) := by
      simp [Updater.applyPhase, ha, he]
    obtain ⟨rest, htr, hd, hap, hp, hres⟩ := watchPhase_trace env
      (if cache.parserErrs = [] then { cache with applied := true } else cache)
      (t ++ [Action.applyStep])
    rw [hred]
    refine ⟨Action.applyStep :: rest, ?_, by simp [hd], by simp [hp], ?_, by simp⟩
    · simpa [List.append_assoc] using htr
    · constructor
      · intro hmem
        rcases List.mem_cons.mp hmem with h | h
        · exact absurd h (by simp)
        · exact hres.mp h
      · intro hnil
        exact List.mem_cons.mpr (Or.inr (hres.mpr hnil))
  · have hred : Updater.applyPhase env cache t =
        ⟨cache, env.applyErrs, t ++ [Action.applyStep]⟩ := by
      simp [Updater.applyPhase, ha, he]
    rw [hred]
    exact ⟨[Action.applyStep], rfl, by simp, by simp, by simp [he], by simp⟩

/-- One cycle always pauses first, and its trace extends `[pause]` with
stage steps only. -/
theorem update_trace (env : UpdEnv) (cache : CacheForCommit) :
    ∃ rest, (Updater.update env cache).trace = Action.pause :: rest ∧
      Action.pause ∉ rest ∧
      (Action.resume ∈ rest ↔ (Updater.update env cache).errs = []) ∧
      (cache.declaredResourcesUpdated = true → Action.declareStep ∉ rest) ∧
      (cache.declaredResourcesUpdated = true → cache.applied = false →
        rest.head? = some Action.applyStep) ∧
      (cache.declaredResourcesUpdated = false → rest.head? = some Action.declareStep) := by
  by_cases hd : cache.declaredResourcesUpdated
  · have hred : Updater.update env cache = Updater.applyPhase env cache [Action.pause] := by
      simp [Updater.update, hd]
    obtain ⟨rest, htr, hdec, hp, hres, hhead⟩ := applyPhase_trace env cache [Action.pause]
    rw [hred]
    refine ⟨rest, by simpa using htr, hp, hres, fun _ => hdec,
      fun _ hap => hhead (by simp [hap]), by simp [hd]⟩
  by_cases he : env.declareErrs = []
  · have hred : Updater.update env cache =
        Updater.applyPhase env
          (if cache.parserErrs = [] then { cache with declaredResourcesUpdated := true } else cache)
          [Action.pause, Action.declareStep] := by
      simp [Updater.update, hd, he]
    obtain ⟨rest, htr, hdec, hp, hres, hhead⟩ := applyPhase_trace env
      (if cache.parserErrs = [] then { cache with declaredResourcesUpdated := true } else cache)
      [Action.pause, Action.declareStep]
    rw [hred]
    refine ⟨Action.declareStep :: rest, ?_, by simp [hp], ?_,
      fun hcon => absurd hcon hd, fun hcon => absurd hcon hd, fun _ => rfl⟩
    · simpa [List.append_assoc] using htr
    · constructor
      · intro hmem
        rcases List.mem_cons.mp hmem with h | h
        · exact absurd h (by simp)
        · exact hres.mp h
      · intro hnil
        exact List.mem_cons.mpr (Or.inr (hres.mpr hnil))
  · have hred : Updater.update env cache =
        ⟨cache, env.declareErrs, [Action.pause, Action.declareStep]⟩ := by
      simp [Updater.update, hd, he]
    rw [hred]
    exact ⟨[Action.declareStep], rfl, by simp, by simp [he],
      fun hcon => absurd hcon hd, fun hcon => absurd hcon hd, fun _ => rfl⟩

/-- The watch phase never changes the declared-resources flag. -/
theorem watchPhase_cache_declared (env : UpdEnv) (cache : CacheForCommit) (t : List Action) :
    (Updater.watchPhase env cache t).cache.declaredResourcesUpdated =
      cache.declaredResourcesUpdated := by
  unfold Updater.watchPhase
  split_ifs <;> rfl

/-- The apply phase never changes the declared-resources flag. -/
theorem applyPhase_cache_declared (env : UpdEnv) (cache : CacheForCommit) (t : List Action) :
    (Updater.applyPhase env cache t).cache.declaredResourcesUpdated =
      cache.declaredResourcesUpdated := by
  unfold Updater.applyPhase
  split_ifs with h1 h2 h3
  · exact watchPhase_cache_declared env cache t
  · rfl
  · rw [watchPhase_cache_declared]
  · rw [watchPhase_cache_declared]

/-- C2: in one cycle the declare step runs iff the cache's
`declaredResourcesUpdated` flag is false; after an error-free declare the
flag becomes true iff the cache carries no parser errors; and a retry cycle
whose flag is already true (and not yet applied) skips re-declaration and
proceeds directly to the apply step. -/
theorem updater_declare_step_iff (env : UpdEnv) (cache : CacheForCommit) :
    (Action.declareStep ∈ (Updater.update env cache).trace ↔
      cache.declaredResourcesUpdated = false) ∧
    (cache.declaredResourcesUpdated = false → env.declareErrs = [] →
      ((Updater.update env cache).cache.declaredResourcesUpdated = true ↔
        cache.parserErrs = [])) ∧
    (cache.declaredResourcesUpdated = true → cache.applied = false →
      (Updater.update env cache).trace.take 2 = [Action.pause, Action.applyStep]) := by
  obtain ⟨rest, htr, hp, hres, hdec, hhead5, hhead6⟩ := update_trace env cache
  refine ⟨?_, ?_, ?_⟩
  · rw [htr]
    simp only [List.mem_cons]
    constructor
    · intro h
      rcases h with h | h
      · exact absurd h (by simp)
      · by_cases hd : cache.declaredResourcesUpdated
        · exact absurd h (hdec hd)
        · simpa using hd
    · intro hflag
      have hh := hhead6 hflag
      cases rest with
      | nil => simp at hh
      | cons a as =>
          simp only [List.head?_cons, Option.some.injEq] at hh
          exact Or.inr (by rw [← hh]; exact List.mem_cons_self a as)
  · intro hd he
    have hred : Updater.update env cache =
        Updater.applyPhase env
          (if cache.parserErrs = [] then { cache with declaredResourcesUpdated := true } else cache)
          [Action.pause, Action.declareStep] := by
      simp [Updater.update, hd, he]
    rw [hred, applyPhase_cache_declared]
    by_cases hpe : cache.parserErrs = []
    · simp [hpe]
    · simp [hpe, hd]
  · intro hd ha
    rw [htr]
    have hh := hhead5 hd ha
    cases rest with
    | nil => simp at hh
    | cons a as =>
        simp only [List.head?_cons, Option.some.injEq] at hh
        simp [hh]

/-- Witness for C2 at a concrete cache: a fresh cache declares and, with no
parser errors, ends with the flag set; a cache with the flag already set
goes straight from pause to apply. -/
theorem updater_declare_step_iff_witness :
    Action.declareStep ∈
      (Updater.update ⟨[], [], [], [], []⟩ ⟨false, false, false, [], "c1"⟩).trace ∧
    (Updater.update ⟨[], [], [], [], []⟩
      ⟨false, false, false, [], "c1"⟩).cache.declaredResourcesUpdated = true ∧
    (Updater.update ⟨[], [], [], [], []⟩ ⟨true, false, false, [], "c1"⟩).trace.take 2 =
      [Action.pause, Action.applyStep] := by
  have h1 := updater_declare_step_iff ⟨[], [], [], [], []⟩ ⟨false, false, false, [], "c1"⟩
  have h2 := updater_declare_step_iff ⟨[], [], [], [], []⟩ ⟨true, false, false, [], "c1"⟩
  exact ⟨h1.1.mpr rfl, (h1.2.1 rfl rfl).mpr rfl, h2.2.2 rfl rfl⟩

/-- C3 (amended): every cycle pauses the remediator first and resumes it
exactly when the cycle reports no error; after a declare, apply or
watch-update error the cycle returns with the remediator still paused. -/
theorem updater_pause_resume (env : UpdEnv) (cache : CacheForCommit) :
    (Updater.update env cache).trace.head? = some Action.pause ∧
    (Action.resume ∈ (Updater.update env cache).trace ↔
      (Updater.update env cache).errs = []) := by
  obtain ⟨rest, htr, hp, hres, -, -, -⟩ := update_trace env cache
  rw [htr]
  refine ⟨rfl, ?_⟩
  simp only [List.mem_cons]
  constructor
  · intro h
    rcases h with h | h
    · exact absurd h (by simp)
    · exact hres.mp h
  · intro h
    exact Or.inr (hres.mpr h)

/-- Counterexample to C3 as stated: when the declare step fails, the cycle
returns without ever resuming the remediator. -/
theorem updater_resume_counterexample :
    Action.resume ∉
      (Updater.update ⟨[UErr.mk 0], [], [], [], []⟩
        ⟨false, false, false, [], ""⟩).trace := by
  decide

/-- C4: the error set returned by `Updater.Update` is exactly the
remediator's conflict errors, then its fight errors, then the errors of the
cycle just run; in particular it is non-nil whenever the remediator holds
conflict or fight errors, even for a clean cycle. -/
theorem updater_update_error_preamble (env : UpdEnv) (cache : CacheForCommit) :
    (Updater.Update env cache).2 =
      env.conflictErrs ++ env.fightErrs ++ (Updater.update env cache).errs ∧
    (env.conflictErrs ≠ [] ∨ env.fightErrs ≠ [] →
      (Updater.Update env cache).2 ≠ []) := by
  have h1 : (Updater.Update env cache).2 =
      env.conflictErrs ++ env.fightErrs ++ (Updater.update env cache).errs := by
    simp [Updater.Update, statusAppend, conflictErrors_eq, fightErrors_eq,
      List.append_assoc]
  refine ⟨h1, ?_⟩
  intro hne hcontra
  rw [h1] at hcontra
  simp only [List.append_eq_nil] at hcontra
  rcases hne with h | h
  · exact h hcontra.1.1
  · exact h hcontra.1.2

/-- Witness for C4: a remediator-held conflict error makes a clean cycle
return a non-nil error set. -/
theorem updater_update_error_preamble_witness :
    (Updater.Update ⟨[], [], [], [UErr.mk 3], []⟩ ⟨true, true, true, [], "c1"⟩).2 ≠ [] := by
  have h := updater_update_error_preamble ⟨[], [], [], [UErr.mk 3], []⟩
    ⟨true, true, true, [], "c1"⟩
  exact h.2 (Or.inl (by decide))

end parse

namespace apply

/-- `inventory.Info`: the requested inventory identity and namespace. -/
structure InvInfo where
  id : String
  nspace : String
deriving DecidableEq

/-- An inventory object, reduced to the identity its info reports. -/
structure Inv where
  id : String
deriving DecidableEq

/-- A validation error collected by the `validation.Collector`: either an
object-specific `validation.Error` carrying identifiers, or a general one. -/
inductive VErr where
  | objErr (ids : List ID) (code : Nat)
  | general (code : Nat)
deriving DecidableEq

/-- Errors surfaced by `Applier.Run` through `handleError`. -/
inductive AErr where
  | invIDMismatch (expected got : String)
  | external (code : Nat)
  | validationAgg (es : List VErr)
  | invalidPolicy
deriving DecidableEq

/-- Observable outputs of one `Applier.Run`, in emission order: events on
the event channel plus the markers for computing the apply/prune sets,
registering an invalid object with the task context, and running the task
queue. -/
inductive Output where
  | errorEvent (e : AErr)
  | validationEvent (ids : List ID) (code : Nat)
  | prepareStep
  | addInvalid (id : ID)
  | initEvent
  | taskRun
deriving DecidableEq

/-- `handleValidationError` (part_003:328-348): a `validation.Error` event
carries its identifiers, a general error carries none. -/
def handleValidationError (e : VErr) : Output :=
  match e with
  | VErr.objErr ids code => Output.validationEvent ids code
  | VErr.general code => Output.validationEvent [] code

/-- Result of `invClient.Get`: the inventory, a not-found error, or another
failure. -/
inductive GetInvResult where
  | ok (inv : Inv)
  | notFound
  | failure (e : AErr)
deriving DecidableEq

/-- `validation.Policy`, with a constructor for any unrecognized value
(the switch's default branch). -/
inductive Policy where
  | exitEarly
  | skipInvalid
  | unknownPolicy
deriving DecidableEq

/-- Inputs of an `Applier.Run` invocation plus the outcomes of its external
calls: the collector state after `validator.Validate(objects)` (`vErrors`,
`invalidIDs`), the inventory client results, the prune-set computation
(`pruner.GetPruneObjs`) and the task-status runner outcome. -/
structure RunEnv where
  invInfo : InvInfo
  objects : List ID
  vErrors : List VErr
  invalidIDs : List ID
  invGet : GetInvResult
  newInv : Except AErr Inv
  pruneRes : Except AErr (List ID)
  policy : Policy
  runnerErr : Option AErr

/-- `vCollector.ToError()`: nil when no error was collected. -/
def vCollectorToError (es : List VErr) : Option AErr :=
  if es = [] then none else some (AErr.validationAgg es)

/-- The inventory acquisition of `Applier.Run` (part_003:100-107): read the
inventory; on a not-found error create a fresh empty one. -/
def resolveInv (env : RunEnv) : Except AErr Inv :=
  match env.invGet with
  | GetInvResult.ok inv => Except.ok inv
  | GetInvResult.notFound => env.newInv
  | GetInvResult.failure e => Except.error e

/-- `Applier.prepareObjects` (part_003:56-75): the apply set is the local
object set itself; the prune set comes from the pruner. -/
def Applier.prepareObjects (env : RunEnv) : Except AErr (List ID × List ID) :=
  match env.pruneRes with
  | Except.error e => Except.error e
  | Except.ok pruneObjs => Except.ok (env.objects, pruneObjs)

/-- `localNamespaces` (part_003:310-326): the namespaces of all namespaced
local objects, plus the inventory namespace when non-empty. -/
def localNamespaces (localInv : InvInfo) (localObjs : List ID) : Finset String :=
  let namespaces := localObjs.foldl
    (fun acc obj => if obj.nspace ≠ "" then insert obj.nspace acc else acc)
    (∅ : Finset String)
  if localInv.nspace ≠ "" then insert localInv.nspace namespaces else namespaces

/-- The namespace set handed to the `LocalNamespacesFilter` when the prune
filters are built (part_003:149-151). -/
def Applier.pruneProtectedNamespaces (env : RunEnv) : Finset String :=
  localNamespaces env.invInfo env.objects

/-- The tail of a run after validation handling (part_003:216-246):
register the invalid IDs with the task context, emit the init event, run
the task queue, and surface a runner error as an error event. -/
def afterValidation (env : RunEnv) : List Output :=
  List.map Output.addInvalid env.invalidIDs ++ [Output.initEvent, Output.taskRun] ++
    (match env.runnerErr with
     | some e => [Output.errorEvent e]
     | none => [])

/-- The validation-policy switch of `Applier.Run` (part_003:200-214). -/
def validationSwitch (env : RunEnv) : List Output :=
  match env.policy with
  | Policy.exitEarly =>
      match vCollectorToError env.vErrors with
      | some e => [Output.errorEvent e]
      | none => afterValidation env
  | Policy.skipInvalid =>
      List.map handleValidationError env.vErrors ++ afterValidation env
  | Policy.unknownPolicy => [Output.errorEvent AErr.invalidPolicy]

/-- The part of `Applier.Run` after the inventory was acquired
(part_003:108-246): check the inventory ID, compute the apply and prune
sets, then handle validation and run the task queue. -/
def Applier.runWithInv (env : RunEnv) (inv : Inv) : List Output :=
  if inv.id ≠ env.invInfo.id then
    [Output.errorEvent (AErr.invIDMismatch env.invInfo.id inv.id)]
  else
    match Applier.prepareObjects env with
    | Except.error e => [Output.prepareStep, Output.errorEvent e]
    | Except.ok _ => Output.prepareStep :: validationSwitch env

/-- `Applier.Run` (part_003:85-249) as the ordered list of its outputs. -/
def Applier.Run (env : RunEnv) : List Output :=
  match resolveInv env with
  | Except.error e => [Output.errorEvent e]
  | Except.ok inv => Applier.runWithInv env inv

/-- Recognizer for error events. -/
def isErrorEvent : Output → Bool
  | Output.errorEvent _ => true
  | _ => false

/-- C8: a not-found inventory read makes the run create a fresh inventory
and proceed; the inventory stage aborts the run with a single error event
exactly on a read failure other than not-found or a failure of the
creation itself. -/
theorem applier_run_inventory_not_found (env : RunEnv) :
    (∀ inv, env.invGet = GetInvResult.notFound → env.newInv = Except.ok inv →
      Applier.Run env = Applier.runWithInv env inv) ∧
    (∀ e, resolveInv env = Except.error e ↔
      (env.invGet = GetInvResult.failure e ∨
        (env.invGet = GetInvResult.notFound ∧ env.newInv = Except.error e))) ∧
    (∀ e, resolveInv env = Except.error e →
      Applier.Run env = [Output.errorEvent e]) := by
  refine ⟨?_, ?_, ?_⟩
  · intro inv h1 h2
    simp [Applier.Run, resolveInv, h1, h2]
  · intro e
    cases hg : env.invGet with
    | ok inv => simp [resolveInv, hg]
    | notFound => simp [resolveInv, hg]
    | failure e₀ => simp [resolveInv, hg, eq_comm]
  · intro e h
    simp [Applier.Run, h]

/-- Witness for C8: a not-found read followed by successful creation
proceeds into the run body with the fresh inventory. -/
theorem applier_run_inventory_not_found_witness :
    Applier.Run ⟨⟨"inv1", "cfg"⟩, [], [], [], GetInvResult.notFound,
        Except.ok ⟨"inv1"⟩, Except.ok [], Policy.skipInvalid, none⟩ =
      Applier.runWithInv ⟨⟨"inv1", "cfg"⟩, [], [], [], GetInvResult.notFound,
        Except.ok ⟨"inv1"⟩, Except.ok [], Policy.skipInvalid, none⟩ ⟨"inv1"⟩ :=
  (applier_run_inventory_not_found _).1 ⟨"inv1"⟩ rfl rfl

/-- C9: an inventory whose ID differs from the requested inventory info's
ID aborts the run with a single error event before the apply and prune
sets are computed and before any init event or task execution. -/
theorem applier_run_inv_id_mismatch (env : RunEnv) (inv : Inv)
    (hres : resolveInv env = Except.ok inv) (hne : inv.id ≠ env.invInfo.id) :
    Applier.Run env = [Output.errorEvent (AErr.invIDMismatch env.invInfo.id inv.id)] ∧
    Output.prepareStep ∉ Applier.Run env ∧
    Output.initEvent ∉ Applier.Run env ∧
    Output.taskRun ∉ Applier.Run env := by
  have h : Applier.Run env =
      [Output.errorEvent (AErr.invIDMismatch env.invInfo.id inv.id)] := by
    simp [Applier.Run, hres, Applier.runWithInv, hne]
  rw [h]
  exact ⟨rfl, by simp, by simp, by simp⟩

/-- Witness for C9: a stored inventory carrying ID "other" against a
request for ID "inv1" yields exactly the mismatch error event. -/
theorem applier_run_inv_id_mismatch_witness :
    Applier.Run ⟨⟨"inv1", "cfg"⟩, [], [], [], GetInvResult.ok ⟨"other"⟩,
        Except.ok ⟨"other"⟩, Except.ok [], Policy.skipInvalid, none⟩ =
      [Output.errorEvent (AErr.invIDMismatch "inv1" "other")] :=
  (applier_run_inv_id_mismatch
    ⟨⟨"inv1", "cfg"⟩, [], [], [], GetInvResult.ok ⟨"other"⟩,
      Except.ok ⟨"other"⟩, Except.ok [], Policy.skipInvalid, none⟩
    ⟨"other"⟩ rfl (by decide)).1

/-- C7 (amended): with a non-empty validation collector, `ExitEarly` always
emits exactly one error event and never reaches the init event or task
execution; `SkipInvalid` — provided the inventory is acquired with a
matching ID and the prune set is computed — emits one validation event per
collected error, registers every invalid ID with the task context, and
still runs the task queue. -/
theorem applier_run_validation_policy (env : RunEnv) (hv : env.vErrors ≠ []) :
    (env.policy = Policy.exitEarly →
      (List.filter isErrorEvent (Applier.Run env)).length = 1 ∧
      Output.initEvent ∉ Applier.Run env ∧
      Output.taskRun ∉ Applier.Run env) ∧
    (env.policy = Policy.skipInvalid →
      ∀ inv, resolveInv env = Except.ok inv → inv.id = env.invInfo.id →
      ∀ pruneObjs, env.pruneRes = Except.ok pruneObjs →
      Applier.Run env =
        Output.prepareStep ::
          (List.map handleValidationError env.vErrors ++ afterValidation env) ∧
      Output.taskRun ∈ Applier.Run env) := by
  constructor
  · intro hpol
    have hsw : validationSwitch env =
        [Output.errorEvent (AErr.validationAgg env.vErrors)] := by
      simp [validationSwitch, hpol, vCollectorToError, hv]
    cases hres : resolveInv env with
    | error e => simp [Applier.Run, hres, isErrorEvent]
    | ok inv =>
        by_cases hne : inv.id ≠ env.invInfo.id
        · simp [Applier.Run, hres, Applier.runWithInv, hne, isErrorEvent]
        · cases hprep : Applier.prepareObjects env with
          | error e =>
              simp [Applier.Run, hres, Applier.runWithInv, hne, hprep, isErrorEvent]
          | ok pr =>
              simp [Applier.Run, hres, Applier.runWithInv, hne, hprep, hsw, isErrorEvent]
  · intro hpol inv hres hid pruneObjs hprune
    have hprep : Applier.prepareObjects env = Except.ok (env.objects, pruneObjs) := by
      simp [Applier.prepareObjects, hprune]
    have hrun : Applier.Run env =
        Output.prepareStep ::
          (List.map handleValidationError env.vErrors ++ afterValidation env) := by
      simp [Applier.Run, hres, Applier.runWithInv, hid, hprep, validationSwitch, hpol]
    refine ⟨hrun, ?_⟩
    rw [hrun]
    simp [afterValidation]

/-- Witness for C7's amended statement: one collected error under
`SkipInvalid` with a matching inventory yields the validation event, the
registration, the init event, and the task run. -/
theorem applier_run_validation_policy_witness :
    Applier.Run ⟨⟨"inv1", "cfg"⟩, [], [VErr.general 5], [⟨"g", "k", "n", "m"⟩],
        GetInvResult.ok ⟨"inv1"⟩, Except.ok ⟨"inv1"⟩, Except.ok [],
        Policy.skipInvalid, none⟩ =
      [Output.prepareStep, Output.validationEvent [] 5,
        Output.addInvalid ⟨"g", "k", "n", "m"⟩, Output.initEvent, Output.taskRun] := by
  have h := (applier_run_validation_policy ⟨⟨"inv1", "cfg"⟩, [], [VErr.general 5],
    [⟨"g", "k", "n", "m"⟩], GetInvResult.ok ⟨"inv1"⟩, Except.ok ⟨"inv1"⟩,
    Except.ok [], Policy.skipInvalid, none⟩ (by decide)).2 rfl ⟨"inv1"⟩ rfl rfl [] rfl
  rw [h.1]
  simp [handleValidationError, afterValidation]

/-- Counterexample to C7 as stated: with a collected validation error under
`SkipInvalid` but a failing inventory read, the run emits only the read
error: no validation event is emitted and the task queue never executes. -/
theorem applier_run_validation_policy_counterexample :
    Applier.Run ⟨⟨"inv1", "cfg"⟩, [], [VErr.general 5], [],
        GetInvResult.failure (AErr.external 9), Except.ok ⟨"inv1"⟩,
        Except.ok [], Policy.skipInvalid, none⟩ =
      [Output.errorEvent (AErr.external 9)] ∧
    Output.taskRun ∉ Applier.Run ⟨⟨"inv1", "cfg"⟩, [], [VErr.general 5], [],
        GetInvResult.failure (AErr.external 9), Except.ok ⟨"inv1"⟩,
        Except.ok [], Policy.skipInvalid, none⟩ := by
  constructor
  · rfl
  · decide

/-- Membership in the namespace-collecting fold of `localNamespaces`. -/
theorem mem_localNamespaces_foldl (objs : List ID) :
    ∀ (acc : Finset String) (s : String),
      (s ∈ objs.foldl
        (fun acc obj => if obj.nspace ≠ "" then insert obj.nspace acc else acc) acc ↔
      (s ∈ acc ∨ ∃ o ∈ objs, o.nspace = s ∧ s ≠ "")) := by
  induction objs with
  | nil => intro acc s; simp
  | cons o rest ih =>
      intro acc s
      rw [List.foldl_cons]
      by_cases ho : o.nspace ≠ ""
      · rw [if_pos ho, ih]
        simp only [Finset.mem_insert, List.mem_cons]
        constructor
        · rintro ((h | h) | h)
          · exact Or.inr ⟨o, Or.inl rfl, h.symm, h ▸ ho⟩
          · exact Or.inl h
          · obtain ⟨o', ho', hs⟩ := h
            exact Or.inr ⟨o', Or.inr ho', hs⟩
        · rintro (h | h)
          · exact Or.inl (Or.inr h)
          · obtain ⟨o', ho', hs, hne⟩ := h
            rcases ho' with rfl | ho'
            · exact Or.inl (Or.inl hs.symm)
            · exact Or.inr ⟨o', ho', hs, hne⟩
      · rw [if_neg ho, ih]
        simp only [List.mem_cons]
        push_neg at ho
        constructor
        · rintro (h | h)
          · exact Or.inl h
          · obtain ⟨o', ho', hs⟩ := h
            exact Or.inr ⟨o', Or.inr ho', hs⟩
        · rintro (h | h)
          · exact Or.inl h
          · obtain ⟨o', ho', hs, hne⟩ := h
            rcases ho' with rfl | ho'
            · exact absurd (ho ▸ hs) (Ne.symm hne)
            · exact Or.inr ⟨o', ho', hs, hne⟩

/-- C10: the namespaces protected from pruning by the
`LocalNamespacesFilter` are exactly the namespaces of the namespaced
objects of the applied set plus the inventory's own namespace; in
particular a non-empty inventory namespace is always protected, even when
no declared object resides in it. -/
theorem applier_prune_protected_namespaces (env : RunEnv) :
    (∀ s, s ∈ Applier.pruneProtectedNamespaces env ↔
      ((∃ o ∈ env.objects, o.nspace = s ∧ s ≠ "") ∨
        (s = env.invInfo.nspace ∧ s ≠ ""))) ∧
    (env.invInfo.nspace ≠ "" →
      env.invInfo.nspace ∈ Applier.pruneProtectedNamespaces env) := by
  have hmem : ∀ s, s ∈ Applier.pruneProtectedNamespaces env ↔
      ((∃ o ∈ env.objects, o.nspace = s ∧ s ≠ "") ∨
        (s = env.invInfo.nspace ∧ s ≠ "")) := by
    intro s
    unfold Applier.pruneProtectedNamespaces localNamespaces
    by_cases hi : env.invInfo.nspace ≠ ""
    · rw [if_pos hi]
      simp only [Finset.mem_insert, mem_localNamespaces_foldl, Finset.not_mem_empty,
        false_or]
      constructor
      · rintro (h | h)
        · exact Or.inr ⟨h, h ▸ hi⟩
        · exact Or.inl h
      · rintro (h | h)
        · exact Or.inr h
        · exact Or.inl h.1
    · rw [if_neg hi]
      push_neg at hi
      simp only [mem_localNamespaces_foldl, Finset.not_mem_empty, false_or]
      constructor
      · intro h
        exact Or.inl h
      · rintro (h | h)
        · exact h
        · exact absurd (h.1.trans hi) h.2
  exact ⟨hmem, fun hi => (hmem env.invInfo.nspace).mpr (Or.inr ⟨rfl, hi⟩)⟩

/-- Witness for C10: with no declared object in the inventory's namespace,
that namespace is still in the protected set. -/
theorem applier_prune_protected_namespaces_witness :
    "cfg" ∈ Applier.pruneProtectedNamespaces ⟨⟨"inv1", "cfg"⟩,
      [⟨"g", "k", "other", "m"⟩], [], [], GetInvResult.notFound,
      Except.ok ⟨"inv1"⟩, Except.ok [], Policy.skipInvalid, none⟩ :=
  (applier_prune_protected_namespaces _).2 (by decide)

end apply

end ConfigSync
